import Mathlib

/-!
Shallow embedding of the `use-fs` file watching hook (src/index.ts).

JavaScript `Map<string, string>` and `Record<string, string>` values are
modelled as association lists over `String`; indexing a record (which may
yield `undefined`) is modelled by an `Option String` lookup.  Maps whose
values may be `undefined` at runtime (such as the added-files map built in
`processFiles`) are association lists with `Option String` values.
Asynchronous batched loops whose per-path work only touches entries keyed
by that path are modelled as sequential folds over the handle list, which
is faithful because JS `Map` keys are distinct.
-/

namespace UseFs

/-- Association list modelling a JS Map or Record with string values. -/
abbrev Smap := List (String × String)

/-- Association list modelling a JS Map whose values may be undefined. -/
abbrev OSmap := List (String × Option String)

/-- Record/Map indexing: `m[k]`, yielding `none` for undefined. -/
def lookupS : Smap → String → Option String
  | [], _ => none
  | (k, v) :: rest, p => if k = p then some v else lookupS rest p

/-- JS `Map.set` / record assignment: replace the value at the key, or append. -/
def setS : Smap → String → String → Smap
  | [], k, v => [(k, v)]
  | (k', v') :: rest, k, v =>
      if k' = k then (k, v) :: rest else (k', v') :: setS rest k v

/-- JS `Map.delete` / `delete record[k]`. -/
def eraseS (m : Smap) (k : String) : Smap :=
  m.filter (fun e => e.1 ≠ k)

/-- JS `Map.set` on a map with possibly-undefined values. -/
def setO : OSmap → String → Option String → OSmap
  | [], k, v => [(k, v)]
  | (k', v') :: rest, k, v =>
      if k' = k then (k, v) :: rest else (k', v') :: setO rest k v

/-- File content cache entries: path, content, timestamp. -/
abbrev Cache := List (String × String × Nat)

/-- Lookup in the file contents cache. -/
def lookupC : Cache → String → Option (String × Nat)
  | [], _ => none
  | (k, c, t) :: rest, p => if k = p then some (c, t) else lookupC rest p

/-- Cache `Map.set`. -/
def setC : Cache → String → String → Nat → Cache
  | [], k, c, t => [(k, c, t)]
  | (k', c', t') :: rest, k, c, t =>
      if k' = k then (k, c, t) :: rest else (k', c', t') :: setC rest k c t

/-- Cache `Map.delete`. -/
def eraseC (m : Cache) (k : String) : Cache :=
  m.filter (fun e => e.1 ≠ k)

/-- JS `Set.has` / `Map.has` on a list of paths. -/
def memL (l : List String) (p : String) : Bool :=
  match l with
  | [] => false
  | q :: rest => if q = p then true else memL rest p

/-- JS `Set.add`: insertion-ordered, deduplicating. -/
def insL (l : List String) (p : String) : List String :=
  if memL l p then l else l ++ [p]

/-- JS `Map.delete` on a key list. -/
def eraseL (l : List String) (p : String) : List String :=
  l.filter (fun q => q ≠ p)

/-- Engine state held in the hook refs: watched directory roots
(`watchedDirectoriesRef` keys), file handle paths (`handlesRef` keys),
`previousHandlesRef`, `filesMapRef` and `fileContentsCache`. -/
structure EngineState where
  watched : List String
  handles : List String
  previousHandles : List String
  filesMap : Smap
  cache : Cache
deriving Repr, DecidableEq

/-- Accumulator of the batched read loop in `processFiles`. -/
structure LoopAcc where
  seen : List String
  changed : Smap
  deletedSet : List String
  newFilesMap : Smap
  cache : Cache
  handles : List String
  rerender : Bool
deriving Repr, DecidableEq

/-- Cache consultation in the read loop: a hit requires
`now - cached.timestamp < fileCacheTtl`. -/
def cacheValid (cache : Cache) (now ttl : Nat) (p : String) : Option String :=
  match lookupC cache p with
  | some (c, ts) => if now - ts < ttl then some c else none
  | none => none

/-- One path of the batched read loop of `processFiles` (src/index.ts lines
381-413): record the path as seen, use a valid cache entry or read through
the handle, compare against the previous files map, and on a read failure
drop the path from handles and cache and mark it in the deleted set.
`read p = none` models `getFile()`/`text()` throwing. -/
def stepPath (prevMap : Smap) (read : String → Option String) (now ttl : Nat)
    (acc : LoopAcc) (p : String) : LoopAcc :=
  let acc1 := { acc with seen := insL acc.seen p }
  match cacheValid acc1.cache now ttl p with
  | some c =>
      let acc2 := { acc1 with newFilesMap := setS acc1.newFilesMap p c }
      if lookupS prevMap p ≠ some c then
        { acc2 with changed := setS acc2.changed p c }
      else acc2
  | none =>
      match read p with
      | some text =>
          let acc2 := { acc1 with
            cache := setC acc1.cache p text now,
            newFilesMap := setS acc1.newFilesMap p text }
          if lookupS prevMap p ≠ some text then
            { acc2 with changed := setS acc2.changed p text }
          else acc2
      | none =>
          { acc1 with
            handles := eraseL acc1.handles p,
            deletedSet := insL acc1.deletedSet p,
            cache := eraseC acc1.cache p,
            rerender := true }

/-- Result of one `processFiles` cycle: the new engine state, the delta
lists, the three callback payloads (each `none` when the delta is empty,
mirroring the `size > 0` guards), and the `setFiles` publication. -/
structure CycleResult where
  state : EngineState
  addedFiles : List String
  changedFiles : Smap
  deletedFiles : List String
  addedEvent : Option (OSmap × OSmap)
  changedEvent : Option (Smap × OSmap)
  deletedEvent : Option (OSmap × OSmap)
  filesEvent : Option Smap
  rerender : Bool
deriving Repr

/-- Initial loop accumulator of a `processFiles` cycle. -/
def loopAcc0 (st : EngineState) : LoopAcc :=
  { seen := [], changed := [], deletedSet := [], newFilesMap := [],
    cache := st.cache, handles := st.handles, rerender := false }

/-- The complete batched read loop of one cycle: a fold of `stepPath` over
the snapshot of handle entries, with `previousFilesMapRef` frozen to the
files map at cycle start. -/
def loopOf (st : EngineState) (read : String → Option String)
    (now ttl : Nat) : LoopAcc :=
  st.handles.foldl (stepPath st.filesMap read now ttl) (loopAcc0 st)

/-- Cache after the post-loop purge of entries older than the TTL
(src/index.ts lines 417-423). -/
def purgedCacheOf (st : EngineState) (read : String → Option String)
    (now ttl : Nat) : Cache :=
  (loopOf st read now ttl).cache.filter (fun e => !(decide (now - e.2.2 > ttl)))

/-- The deleted delta of a cycle: prior seen paths and read-failure paths,
minus everything seen this cycle (src/index.ts lines 425-428). -/
def deletedFilesOf (st : EngineState) (read : String → Option String)
    (now ttl : Nat) : List String :=
  (st.previousHandles ++ (loopOf st read now ttl).deletedSet).filter
    (fun p => !(memL (loopOf st read now ttl).seen p))

/-- The added delta of a cycle: seen paths that were not previously seen
(src/index.ts lines 430-432). -/
def addedFilesOf (st : EngineState) (read : String → Option String)
    (now ttl : Nat) : List String :=
  (loopOf st read now ttl).seen.filter (fun p => !(memL st.previousHandles p))

/-- The added-files map passed to `onFilesAdded`: values are read from the
files map ref, which at this point still holds the PREVIOUS cycle's
contents (src/index.ts lines 434-438). -/
def addedFilesMapOf (st : EngineState) (read : String → Option String)
    (now ttl : Nat) : OSmap :=
  (addedFilesOf st read now ttl).foldl
    (fun m p => setO m p (lookupS st.filesMap p)) []

/-- The deletion loop (src/index.ts lines 440-446): for each deleted path,
record its last known content, then drop it from the handle map and from
the old files map.  Returns (deletedFilesMap, handles, filesMap). -/
def delFoldOf (st : EngineState) (read : String → Option String)
    (now ttl : Nat) : OSmap × List String × Smap :=
  (deletedFilesOf st read now ttl).foldl
    (fun (t : OSmap × List String × Smap) p =>
      (setO t.1 p (lookupS t.2.2 p), eraseL t.2.1 p, eraseS t.2.2 p))
    ([], (loopOf st read now ttl).handles, st.filesMap)

/-- The previous-files map passed to all three callbacks, built AFTER the
deletion loop has pruned deleted paths from the old files map
(src/index.ts lines 448-453). -/
def previousFilesOfCycle (st : EngineState) (read : String → Option String)
    (now ttl : Nat) : OSmap :=
  st.previousHandles.map (fun p => (p, lookupS (delFoldOf st read now ttl).2.2 p))

/-- One cycle of `processFiles` (src/index.ts lines 364-476).  The read
loop runs over the snapshot of handle entries; afterwards stale cache
entries are purged, the deltas are assembled, deleted paths are pruned
from the handle map and the old files map, the previous-files map is
built from `previousHandlesRef` over the (pruned) old files map, the
three callbacks fire for non-empty deltas, and the refs are committed. -/
def processFiles (st : EngineState) (read : String → Option String)
    (now ttl : Nat) : CycleResult :=
  let acc := loopOf st read now ttl
  let deletedFiles := deletedFilesOf st read now ttl
  let addedFiles := addedFilesOf st read now ttl
  let previousFiles := previousFilesOfCycle st read now ttl
  let st2 : EngineState :=
    { st with
      handles := (delFoldOf st read now ttl).2.1
      previousHandles := acc.seen
      filesMap := acc.newFilesMap
      cache := purgedCacheOf st read now ttl }
  { state := st2,
    addedFiles := addedFiles,
    changedFiles := acc.changed,
    deletedFiles := deletedFiles,
    addedEvent :=
      if addedFiles.isEmpty then none
      else some (addedFilesMapOf st read now ttl, previousFiles),
    changedEvent :=
      if acc.changed.isEmpty then none else some (acc.changed, previousFiles),
    deletedEvent :=
      if deletedFiles.isEmpty then none
      else some ((delFoldOf st read now ttl).1, previousFiles),
    filesEvent :=
      if acc.rerender || !acc.changed.isEmpty || !deletedFiles.isEmpty
          || !addedFiles.isEmpty then
        some acc.newFilesMap
      else none,
    rerender :=
      acc.rerender || !acc.changed.isEmpty || !deletedFiles.isEmpty
        || !addedFiles.isEmpty }

/-- Directory part of a path, per the JS `path.substring(0, path.lastIndexOf("/"))`. -/
def dirOf (path : String) : String :=
  String.intercalate "/" (path.splitOn "/").dropLast

/-- Leaf file name of a path, per `path.substring(path.lastIndexOf("/") + 1)`. -/
def leafOf (path : String) : String :=
  ((path.splitOn "/").getLast? ).getD path

/-- Result of a `writeFile` call: the engine state afterwards (JS mutations
to the refs persist even when an error is thrown later), the changed
notification if fired, the `setFiles` publication, the propagated error if
any, and whether `writable.abort()` was invoked. -/
structure WriteResult where
  state : EngineState
  changedEvent : Option (Smap × OSmap)
  filesEvent : Option Smap
  error : Option String
  aborted : Bool
deriving Repr

/-- Previous-files map passed by `writeFile` to the changed callback:
`previousHandlesRef` mapped over the current `filesMapRef`. -/
def previousFilesOf (st : EngineState) : OSmap :=
  st.previousHandles.map (fun p => (p, lookupS st.filesMap p))

/-- The `writeFile` mutation operation (src/index.ts lines 528-610).
String data only, so the content written is `data` itself.  `writeOk`
models whether the write transaction (`writable.write` and
`writable.close`) succeeds; on failure the transaction is aborted and the
error re-thrown.  Lazy handle creation through the parent watched
directory is modelled by extending the handle key list; the platform
`getFileHandle(..., create)` call is assumed to succeed, and the
leaf-name double-check always passes because stored handles carry the
leaf name of their path. -/
def writeFile (st : EngineState) (path data : String)
    (create _truncate : Bool) (writeOk : Bool) (now : Nat) : WriteResult :=
  if path = "" then
    { state := st, changedEvent := none, filesEvent := none,
      error := some "Invalid file path", aborted := false }
  else
    let resolved : Except String EngineState :=
      if memL st.handles path then Except.ok st
      else if !create then Except.error ("File not found: " ++ path)
      else
        let dp := dirOf path
        let fn := leafOf path
        if dp = "" || fn = "" then Except.error "Invalid file path structure"
        else if memL st.watched dp then
          Except.ok { st with handles := st.handles ++ [path] }
        else Except.error ("Directory not found: " ++ dp)
    match resolved with
    | Except.error e =>
        { state := st, changedEvent := none, filesEvent := none,
          error := some e, aborted := false }
    | Except.ok st1 =>
        if writeOk then
          let cache2 := setC st1.cache path data now
          let changedFiles : Smap := [(path, data)]
          let previousFiles := previousFilesOf st1
          let fm2 := setS st1.filesMap path data
          { state := { st1 with cache := cache2, filesMap := fm2 },
            changedEvent := some (changedFiles, previousFiles),
            filesEvent := some fm2,
            error := none, aborted := false }
        else
          { state := st1, changedEvent := none, filesEvent := none,
            error := some "write failed", aborted := true }

/-- Debounced view of a stream of raw snapshot updates, modelling
`useDebounce` (src/index.ts lines 246-260): every raw update at time `tu`
schedules publication of its value at `tu + delay` and cancels the
previously pending timer, so an update is published only if no further
update arrives strictly within its delay window.  `debouncedAt` returns
the externally observable value at time `t`, given the time-ordered list
of raw updates and the initial value. -/
def debouncedAt {α : Type} (init : α) (delay : Nat)
    (updates : List (Nat × α)) (t : Nat) : α :=
  let fired := updates.filter (fun u =>
    decide (u.1 + delay ≤ t) &&
      updates.all (fun u2 => decide (u2.1 ≤ u.1) || decide (u.1 + delay ≤ u2.1)))
  match fired.getLast? with
  | some u => u.2
  | none => init

/-- Events driving the poll scheduler: an interval timer tick, or the
completion of an in-flight cycle (the `finally` block). -/
inductive SchedEvent : Type where
  | tick : SchedEvent
  | cycleEnd : SchedEvent
deriving Repr, DecidableEq

/-- Scheduler state: `processing` models `processingPromise !== null`
(set synchronously when a cycle starts, cleared in the `finally` block);
`started` counts the cycles ever started. -/
structure SchedState where
  processing : Bool
  started : Nat
deriving Repr, DecidableEq

/-- One step of the poll scheduler (src/index.ts lines 481-508): a timer
tick while a cycle is in flight returns immediately without starting a
new cycle; otherwise it starts a cycle.  Cycle completion clears the
in-flight flag. -/
def schedStep (s : SchedState) : SchedEvent → SchedState
  | SchedEvent.tick =>
      if s.processing then s
      else { processing := true, started := s.started + 1 }
  | SchedEvent.cycleEnd => { s with processing := false }

/-- Run the scheduler over a sequence of events. -/
def schedRun (s : SchedState) (es : List SchedEvent) : SchedState :=
  es.foldl schedStep s

/-- Whether a character list starts with the pattern. -/
def chStarts : List Char → List Char → Bool
  | _, [] => true
  | [], _ :: _ => false
  | c :: cs, d :: ds => c = d && chStarts cs ds

/-- Whether a character list contains the pattern as a contiguous run. -/
def chContains : List Char → List Char → Bool
  | [], pat => pat.isEmpty
  | c :: cs, pat => chStarts (c :: cs) pat || chContains cs pat

/-- JS `String.prototype.includes`: substring containment. -/
def strIncludes (hay needle : String) : Bool :=
  chContains hay.toList needle.toList

/-- JS `String.prototype.endsWith`. -/
def strEnds (hay pat : String) : Bool :=
  chStarts hay.toList.reverse pat.toList.reverse

/-- The path fragment blacklist of `distFilter` (src/index.ts lines 93-114). -/
def isDist (p : String) : Bool :=
  strIncludes p "/dist/" || strIncludes p "/out/" || strIncludes p "/build/" ||
    strIncludes p "/vendor/" || strIncludes p "/node_modules/" ||
    strIncludes p "/.next/"

/-- OS noise check of `miscFilter` (src/index.ts lines 134-143). -/
def isMisc (p : String) : Bool :=
  strEnds p ".DS_Store" || strEnds p ".crswap"

/-- A filter instance: the two predicates of the exclusion policy
contract.  Handles are not consulted by the modelled predicates beyond
what the path already determines. -/
structure FilterM where
  shouldIncludeFile : String → Bool
  shouldProcessDirectory : String → Bool

/-- The built-in `distFilter`. -/
def distFilter : FilterM :=
  { shouldIncludeFile := fun p => !(isDist p),
    shouldProcessDirectory := fun p => !(isDist p) }

/-- The built-in `miscFilter`. -/
def miscFilter : FilterM :=
  { shouldIncludeFile := fun p => !(isMisc p),
    shouldProcessDirectory := fun p => !(isMisc p) }

/-- The built-in `gitFilter` in its per-scan initial state: no
`.gitignore` has been loaded yet, so the external `ignore` package holds
no rules and ignores nothing; encountering a `.gitignore` file loads it
and returns false for that file, and `.git` directories are always
pruned. -/
def gitFilterInit : FilterM :=
  { shouldIncludeFile := fun p => !(strEnds p ".gitignore"),
    shouldProcessDirectory := fun p =>
      !(strEnds p ".git") && !(strIncludes p ".git/") }

/-- The default filter list `commonFilters = [distFilter, miscFilter, gitFilter]`. -/
def commonFiltersM : List FilterM := [distFilter, miscFilter, gitFilterInit]

/-- A directory tree: a list of (name, content) files and a list of
(name, subtree) subdirectories. -/
inductive FsTree : Type where
  | node : List (String × String) → List (String × FsTree) → FsTree
deriving Repr

/-- State threaded through `processDirectory`: the accumulated
`includeFiles` map (path to content, standing for path to file handle),
the per-scan `ignoreFilePaths` exclusion set, and a trace recording every
individual filter predicate evaluation as (path, isDirectoryCheck). -/
structure ScanState where
  includeFiles : Smap
  ignorePaths : List String
  trace : List (String × Bool)
deriving Repr, DecidableEq

/-- Run `shouldProcessDirectory` of each filter in order with
short-circuit on the first rejection, recording each evaluation. -/
def runDirFilters : List FilterM → String → Bool × List (String × Bool)
  | [], _ => (true, [])
  | f :: rest, p =>
      if f.shouldProcessDirectory p then
        let r := runDirFilters rest p
        (r.1, (p, true) :: r.2)
      else (false, [(p, true)])

/-- Run `shouldIncludeFile` of each filter in order with short-circuit on
the first rejection, recording each evaluation. -/
def runFileFilters : List FilterM → String → Bool × List (String × Bool)
  | [], _ => (true, [])
  | f :: rest, p =>
      if f.shouldIncludeFile p then
        let r := runFileFilters rest p
        (r.1, (p, false) :: r.2)
      else (false, [(p, false)])

/-- File pass of `processDirectory` (src/index.ts lines 189-220): for each
file entry not already excluded, evaluate the file predicates; a
rejection records the path in the exclusion set and removes any stale
entry, an approval records path to handle. -/
def filePass (fil : List FilterM) (dirPath : String)
    (files : List (String × String)) (s : ScanState) : ScanState :=
  files.foldl
    (fun s e =>
      let p := dirPath ++ "/" ++ e.1
      if memL s.ignorePaths p then s
      else
        let r := runFileFilters fil p
        let s1 := { s with trace := s.trace ++ r.2 }
        if r.1 then { s1 with includeFiles := setS s1.includeFiles p e.2 }
        else
          { s1 with
            ignorePaths := s1.ignorePaths ++ [p],
            includeFiles := eraseS s1.includeFiles p })
    s

mutual

/-- The recursive scanner `processDirectory` (src/index.ts lines 166-244):
early exit for an already excluded directory, directory predicates first
(a rejection prunes the whole subtree), then the file pass, then
recursion into surviving subdirectories. -/
def processDir (fil : List FilterM) (dirPath : String) (t : FsTree)
    (s : ScanState) : ScanState :=
  if memL s.ignorePaths dirPath then s
  else
    match t with
    | FsTree.node files subdirs =>
        let r := runDirFilters fil dirPath
        let s1 := { s with trace := s.trace ++ r.2 }
        if r.1 then
          dirPass fil dirPath subdirs (filePass fil dirPath files s1)
        else { s1 with ignorePaths := s1.ignorePaths ++ [dirPath] }

/-- Directory pass of `processDirectory` (src/index.ts lines 222-241). -/
def dirPass (fil : List FilterM) (dirPath : String)
    (ds : List (String × FsTree)) (s : ScanState) : ScanState :=
  match ds with
  | [] => s
  | (n, sub) :: rest =>
      let p := dirPath ++ "/" ++ n
      let s1 := if memL s.ignorePaths p then s else processDir fil p sub s
      dirPass fil dirPath rest s1

end

/-! Lemmas about the map and set primitives. -/

theorem memL_iff (l : List String) (p : String) : memL l p = true ↔ p ∈ l := by
  induction l with
  | nil => simp [memL]
  | cons q rest ih =>
      by_cases h : q = p
      · subst h; simp [memL]
      · simp [memL, h, ih, Ne.symm h]

theorem lookupS_setS_self (m : Smap) (k v : String) :
    lookupS (setS m k v) k = some v := by
  induction m with
  | nil => simp [setS, lookupS]
  | cons e rest ih =>
      by_cases h : e.1 = k
      · simp [setS, h, lookupS]
      · simp [setS, h, lookupS, ih]

theorem lookupS_setS_ne (m : Smap) (k v p : String) (h : k ≠ p) :
    lookupS (setS m k v) p = lookupS m p := by
  induction m with
  | nil => simp [setS, lookupS, h]
  | cons e rest ih =>
      by_cases he : e.1 = k
      · simp [setS, he, lookupS, h]
      · simp [setS, he, lookupS, ih]

theorem lookupC_setC_self (m : Cache) (k v : String) (t : Nat) :
    lookupC (setC m k v t) k = some (v, t) := by
  induction m with
  | nil => simp [setC, lookupC]
  | cons e rest ih =>
      by_cases h : e.1 = k
      · obtain ⟨k', v', t'⟩ := e; simp_all [setC, lookupC]
      · obtain ⟨k', v', t'⟩ := e; simp_all [setC, lookupC]

theorem lookupC_setC_ne (m : Cache) (k v p : String) (t : Nat) (h : k ≠ p) :
    lookupC (setC m k v t) p = lookupC m p := by
  induction m with
  | nil => simp [setC, lookupC, h]
  | cons e rest ih =>
      obtain ⟨k', v', t'⟩ := e
      by_cases he : k' = k
      · subst he; simp [setC, lookupC, h]
      · simp [setC, he, lookupC, ih]

theorem mem_setC (m : Cache) (k v : String) (t : Nat) (e : String × String × Nat)
    (h : e ∈ setC m k v t) : e = (k, v, t) ∨ e ∈ m := by
  induction m with
  | nil => simp [setC] at h; simp [h]
  | cons e' rest ih =>
      obtain ⟨k', v', t'⟩ := e'
      by_cases he : k' = k
      · subst he; simp [setC] at h
        rcases h with h | h
        · exact Or.inl h
        · exact Or.inr (List.mem_cons_of_mem _ h)
      · simp [setC, he] at h
        rcases h with h | h
        · exact Or.inr (by simp [h])
        · rcases ih h with h1 | h1
          · exact Or.inl h1
          · exact Or.inr (List.mem_cons_of_mem _ h1)

theorem eraseL_not_mem (l : List String) (p : String) (h : p ∉ l) :
    eraseL l p = l := by
  unfold eraseL
  apply List.filter_eq_self.mpr
  intro q hq
  simp only [ne_eq, decide_eq_true_eq]
  intro hqp
  exact h (hqp ▸ hq)

theorem mem_foldl_insL (l : List String) (s : List String) (q : String) :
    q ∈ l.foldl insL s ↔ q ∈ s ∨ q ∈ l := by
  induction l generalizing s with
  | nil => simp
  | cons p rest ih =>
      simp only [List.foldl_cons, ih]
      unfold insL
      by_cases h : memL s p
      · have hp : p ∈ s := (memL_iff s p).mp h
        simp only [h, if_pos]
        constructor
        · rintro (hq | hq)
          · exact Or.inl hq
          · exact Or.inr (List.mem_cons_of_mem _ hq)
        · rintro (hq | hq)
          · exact Or.inl hq
          · rcases List.mem_cons.mp hq with hq | hq
            · exact Or.inl (hq ▸ hp)
            · exact Or.inr hq
      · simp only [h, if_neg, Bool.false_eq_true, not_false_iff, List.mem_append,
          List.mem_singleton, List.mem_cons]
        tauto

/-! Lemmas characterizing the batched read loop. -/

theorem stepPath_fresh (prevMap : Smap) (read : String → Option String)
    (now ttl : Nat) (acc : LoopAcc) (p c : String)
    (hcp : lookupC acc.cache p = none) (hrp : read p = some c) :
    stepPath prevMap read now ttl acc p =
      if lookupS prevMap p ≠ some c then
        { acc with
          seen := insL acc.seen p
          changed := setS acc.changed p c
          newFilesMap := setS acc.newFilesMap p c
          cache := setC acc.cache p c now }
      else
        { acc with
          seen := insL acc.seen p
          newFilesMap := setS acc.newFilesMap p c
          cache := setC acc.cache p c now } := by
  unfold stepPath cacheValid
  simp only [hcp, hrp]

theorem stepPath_hit (prevMap : Smap) (read : String → Option String)
    (now ttl : Nat) (acc : LoopAcc) (p c : String)
    (hcp : cacheValid acc.cache now ttl p = some c)
    (hpm : lookupS prevMap p = some c) :
    stepPath prevMap read now ttl acc p =
      { acc with
        seen := insL acc.seen p
        newFilesMap := setS acc.newFilesMap p c } := by
  unfold stepPath
  have hcp2 : cacheValid ({ acc with seen := insL acc.seen p } : LoopAcc).cache
      now ttl p = some c := hcp
  simp only [hcp2, hpm]
  simp

theorem loop_fresh (read : String → Option String) (now ttl : Nat) (prevMap : Smap)
    (c : String → String) (batch : List String) (acc : LoopAcc)
    (hnd : batch.Nodup)
    (hca : ∀ p ∈ batch, lookupC acc.cache p = none)
    (hrd : ∀ p ∈ batch, read p = some (c p)) :
    (batch.foldl (stepPath prevMap read now ttl) acc).seen
        = batch.foldl insL acc.seen ∧
    (batch.foldl (stepPath prevMap read now ttl) acc).newFilesMap
        = batch.foldl (fun m p => setS m p (c p)) acc.newFilesMap ∧
    (batch.foldl (stepPath prevMap read now ttl) acc).cache
        = batch.foldl (fun ca p => setC ca p (c p) now) acc.cache ∧
    (batch.foldl (stepPath prevMap read now ttl) acc).deletedSet = acc.deletedSet ∧
    (batch.foldl (stepPath prevMap read now ttl) acc).handles = acc.handles := by
  induction batch generalizing acc with
  | nil => simp
  | cons p rest ih =>
      have hcp : lookupC acc.cache p = none := hca p (List.mem_cons_self p rest)
      have hrp : read p = some (c p) := hrd p (List.mem_cons_self p rest)
      have hndr : rest.Nodup := (List.nodup_cons.mp hnd).2
      have hpnr : p ∉ rest := (List.nodup_cons.mp hnd).1
      have hcane : ∀ q ∈ rest, lookupC (setC acc.cache p (c p) now) q = none := by
        intro q hq
        rw [lookupC_setC_ne]
        · exact hca q (List.mem_cons_of_mem _ hq)
        · intro hpq; exact hpnr (hpq ▸ hq)
      have hrd2 : ∀ q ∈ rest, read q = some (c q) :=
        fun q hq => hrd q (List.mem_cons_of_mem _ hq)
      simp only [List.foldl_cons,
        stepPath_fresh prevMap read now ttl acc p (c p) hcp hrp]
      by_cases hch : lookupS prevMap p ≠ some (c p)
      · rw [if_pos hch]
        have := ih
          { acc with
            seen := insL acc.seen p
            changed := setS acc.changed p (c p)
            newFilesMap := setS acc.newFilesMap p (c p)
            cache := setC acc.cache p (c p) now }
          hndr (by simpa using hcane) hrd2
        simpa using this
      · rw [if_neg hch]
        have := ih
          { acc with
            seen := insL acc.seen p
            newFilesMap := setS acc.newFilesMap p (c p)
            cache := setC acc.cache p (c p) now }
          hndr (by simpa using hcane) hrd2
        simpa using this

theorem loop_hit (read : String → Option String) (now ttl : Nat) (prevMap : Smap)
    (c : String → String) (batch : List String) (acc : LoopAcc)
    (hca : ∀ p ∈ batch, cacheValid acc.cache now ttl p = some (c p))
    (hpm : ∀ p ∈ batch, lookupS prevMap p = some (c p)) :
    (batch.foldl (stepPath prevMap read now ttl) acc).seen
        = batch.foldl insL acc.seen ∧
    (batch.foldl (stepPath prevMap read now ttl) acc).newFilesMap
        = batch.foldl (fun m p => setS m p (c p)) acc.newFilesMap ∧
    (batch.foldl (stepPath prevMap read now ttl) acc).cache = acc.cache ∧
    (batch.foldl (stepPath prevMap read now ttl) acc).changed = acc.changed ∧
    (batch.foldl (stepPath prevMap read now ttl) acc).deletedSet = acc.deletedSet ∧
    (batch.foldl (stepPath prevMap read now ttl) acc).handles = acc.handles ∧
    (batch.foldl (stepPath prevMap read now ttl) acc).rerender = acc.rerender := by
  induction batch generalizing acc with
  | nil => simp
  | cons p rest ih =>
      have hcp : cacheValid acc.cache now ttl p = some (c p) :=
        hca p (List.mem_cons_self p rest)
      have hpp : lookupS prevMap p = some (c p) := hpm p (List.mem_cons_self p rest)
      have hpm2 : ∀ q ∈ rest, lookupS prevMap q = some (c q) :=
        fun q hq => hpm q (List.mem_cons_of_mem _ hq)
      simp only [List.foldl_cons,
        stepPath_hit prevMap read now ttl acc p (c p) hcp hpp]
      have := ih
        { acc with
          seen := insL acc.seen p
          newFilesMap := setS acc.newFilesMap p (c p) }
        (by simpa using fun q hq => hca q (List.mem_cons_of_mem _ hq))
        hpm2
      simpa using this

/-! Lemmas about folded map updates, for the idempotence proof. -/

theorem lookupC_foldl_not_mem (l : List String) (c : String → String) (now : Nat)
    (ca : Cache) (p : String) (h : p ∉ l) :
    lookupC (l.foldl (fun ca q => setC ca q (c q) now) ca) p = lookupC ca p := by
  induction l generalizing ca with
  | nil => rfl
  | cons q rest ih =>
      have hqp : q ≠ p := fun hq => h (hq ▸ List.mem_cons_self q rest)
      have hpr : p ∉ rest := fun hp => h (List.mem_cons_of_mem _ hp)
      simp only [List.foldl_cons]
      rw [ih (setC ca q (c q) now) hpr, lookupC_setC_ne ca q (c q) p now hqp]

theorem lookupC_foldl_mem (l : List String) (c : String → String) (now : Nat)
    (ca : Cache) (p : String) (hnd : l.Nodup) (h : p ∈ l) :
    lookupC (l.foldl (fun ca q => setC ca q (c q) now) ca) p = some (c p, now) := by
  induction l generalizing ca with
  | nil => exact absurd h (List.not_mem_nil p)
  | cons q rest ih =>
      simp only [List.foldl_cons]
      rcases List.mem_cons.mp h with hpq | hpr
      · subst hpq
        have hpr : p ∉ rest := (List.nodup_cons.mp hnd).1
        rw [lookupC_foldl_not_mem rest c now _ p hpr, lookupC_setC_self]
      · exact ih (setC ca q (c q) now) (List.nodup_cons.mp hnd).2 hpr

theorem lookupS_foldl_not_mem (l : List String) (c : String → String)
    (m : Smap) (p : String) (h : p ∉ l) :
    lookupS (l.foldl (fun m q => setS m q (c q)) m) p = lookupS m p := by
  induction l generalizing m with
  | nil => rfl
  | cons q rest ih =>
      have hqp : q ≠ p := fun hq => h (hq ▸ List.mem_cons_self q rest)
      have hpr : p ∉ rest := fun hp => h (List.mem_cons_of_mem _ hp)
      simp only [List.foldl_cons]
      rw [ih (setS m q (c q)) hpr, lookupS_setS_ne m q (c q) p hqp]

theorem lookupS_foldl_mem (l : List String) (c : String → String)
    (m : Smap) (p : String) (hnd : l.Nodup) (h : p ∈ l) :
    lookupS (l.foldl (fun m q => setS m q (c q)) m) p = some (c p) := by
  induction l generalizing m with
  | nil => exact absurd h (List.not_mem_nil p)
  | cons q rest ih =>
      simp only [List.foldl_cons]
      rcases List.mem_cons.mp h with hpq | hpr
      · subst hpq
        have hpr : p ∉ rest := (List.nodup_cons.mp hnd).1
        rw [lookupS_foldl_not_mem rest c _ p hpr, lookupS_setS_self]
      · exact ih (setS m q (c q)) (List.nodup_cons.mp hnd).2 hpr

theorem ts_foldl_setC (l : List String) (c : String → String) (now : Nat)
    (ca : Cache) (h : ∀ e ∈ ca, e.2.2 = now) :
    ∀ e ∈ l.foldl (fun ca q => setC ca q (c q) now) ca, e.2.2 = now := by
  induction l generalizing ca with
  | nil => exact h
  | cons q rest ih =>
      simp only [List.foldl_cons]
      apply ih
      intro e he
      rcases mem_setC ca q (c q) now e he with h1 | h1
      · rw [h1]
      · exact h e h1

theorem delFold_handles_const (ds : List String) (dmap : OSmap)
    (hs : List String) (fm : Smap) (h : ∀ q ∈ ds, q ∉ hs) :
    (ds.foldl
      (fun (t : OSmap × List String × Smap) p =>
        (setO t.1 p (lookupS t.2.2 p), eraseL t.2.1 p, eraseS t.2.2 p))
      (dmap, hs, fm)).2.1 = hs := by
  induction ds generalizing dmap fm with
  | nil => rfl
  | cons q rest ih =>
      simp only [List.foldl_cons]
      rw [eraseL_not_mem hs q (h q (List.mem_cons_self q rest))]
      exact ih _ _ (fun r hr => h r (List.mem_cons_of_mem _ hr))

theorem filter_not_memL_super (l s : List String) (h : ∀ p ∈ l, p ∈ s) :
    l.filter (fun p => !(memL s p)) = [] := by
  apply List.filter_eq_nil_iff.mpr
  intro p hp
  have : memL s p = true := (memL_iff s p).mpr (h p hp)
  simp [this]

/-! Definitional projection lemmas for `processFiles`. -/

theorem processFiles_addedFiles (st : EngineState) (read : String → Option String)
    (now ttl : Nat) :
    (processFiles st read now ttl).addedFiles = addedFilesOf st read now ttl := rfl

theorem processFiles_changedFiles (st : EngineState) (read : String → Option String)
    (now ttl : Nat) :
    (processFiles st read now ttl).changedFiles = (loopOf st read now ttl).changed := rfl

theorem processFiles_deletedFiles (st : EngineState) (read : String → Option String)
    (now ttl : Nat) :
    (processFiles st read now ttl).deletedFiles = deletedFilesOf st read now ttl := rfl

theorem processFiles_addedEvent (st : EngineState) (read : String → Option String)
    (now ttl : Nat) :
    (processFiles st read now ttl).addedEvent =
      if (addedFilesOf st read now ttl).isEmpty then none
      else some (addedFilesMapOf st read now ttl,
        previousFilesOfCycle st read now ttl) := rfl

theorem processFiles_changedEvent (st : EngineState) (read : String → Option String)
    (now ttl : Nat) :
    (processFiles st read now ttl).changedEvent =
      if (loopOf st read now ttl).changed.isEmpty then none
      else some ((loopOf st read now ttl).changed,
        previousFilesOfCycle st read now ttl) := rfl

theorem processFiles_deletedEvent (st : EngineState) (read : String → Option String)
    (now ttl : Nat) :
    (processFiles st read now ttl).deletedEvent =
      if (deletedFilesOf st read now ttl).isEmpty then none
      else some ((delFoldOf st read now ttl).1,
        previousFilesOfCycle st read now ttl) := rfl

theorem processFiles_rerender (st : EngineState) (read : String → Option String)
    (now ttl : Nat) :
    (processFiles st read now ttl).rerender =
      ((loopOf st read now ttl).rerender
        || !(loopOf st read now ttl).changed.isEmpty
        || !(deletedFilesOf st read now ttl).isEmpty
        || !(addedFilesOf st read now ttl).isEmpty) := rfl

theorem processFiles_state_handles (st : EngineState) (read : String → Option String)
    (now ttl : Nat) :
    (processFiles st read now ttl).state.handles = (delFoldOf st read now ttl).2.1 := rfl

theorem processFiles_state_previousHandles (st : EngineState)
    (read : String → Option String) (now ttl : Nat) :
    (processFiles st read now ttl).state.previousHandles
      = (loopOf st read now ttl).seen := rfl

theorem processFiles_state_filesMap (st : EngineState) (read : String → Option String)
    (now ttl : Nat) :
    (processFiles st read now ttl).state.filesMap
      = (loopOf st read now ttl).newFilesMap := rfl

theorem processFiles_state_cache (st : EngineState) (read : String → Option String)
    (now ttl : Nat) :
    (processFiles st read now ttl).state.cache = purgedCacheOf st read now ttl := rfl

/-! Concrete scenarios used by the claim theorems and witnesses. -/

/-- First scan of a root holding files x and y with contents 1 and 2. -/
def firstScanState : EngineState :=
  { watched := ["root"], handles := ["root/x", "root/y"],
    previousHandles := [], filesMap := [], cache := [] }

/-- Reads of the first-scan tree. -/
def firstScanRead : String → Option String :=
  fun p => if p = "root/x" then some "1"
    else if p = "root/y" then some "2" else none

/-- The first cycle over that tree. -/
def firstScan : CycleResult := processFiles firstScanState firstScanRead 0 5000

/-- Engine state with one tracked file x whose content 1 was committed in
a prior cycle; its cache entry has expired. -/
def c3State : EngineState :=
  { watched := ["root"], handles := ["root/x"], previousHandles := ["root/x"],
    filesMap := [("root/x", "1")], cache := [] }

/-- A cycle over `c3State` in which reading x fails (the file vanished
between scan and read). -/
def c3Cycle : CycleResult := processFiles c3State (fun _ => none) 0 5000

/-- Engine state after a cycle committed x with content 1 and y with
content 2; the tree has since changed so that x holds 3 and y is gone,
hence the fresh scan tracked only x, and the cache has expired. -/
def c6State : EngineState :=
  { watched := ["root"], handles := ["root/x"],
    previousHandles := ["root/x", "root/y"],
    filesMap := [("root/x", "1"), ("root/y", "2")], cache := [] }

/-- Reads of the mutated tree: x now holds 3, y is gone. -/
def c6Read : String → Option String :=
  fun p => if p = "root/x" then some "3" else none

/-- The cycle observing the mutation. -/
def c6Cycle : CycleResult := processFiles c6State c6Read 0 5000

/-- Engine state with one tracked, committed file f holding old content. -/
def wState : EngineState :=
  { watched := ["root"], handles := ["root/f"], previousHandles := ["root/f"],
    filesMap := [("root/f", "old")], cache := [("root/f", "old", 0)] }

/-- A successful writeFile of content X to f at time 1000. -/
def c4Write : WriteResult := writeFile wState "root/f" "X" true false true 1000

/-- The scenario tree of the exclusion claim: a root with a.txt, dist/b.txt
and dist/sub/c.txt. -/
def tree8 : FsTree :=
  FsTree.node [("a.txt", "A")]
    [("dist", FsTree.node [("b.txt", "B")]
      [("sub", FsTree.node [("c.txt", "C")] [])])]

/-- A scan of that tree with the default filter set. -/
def scan8 : ScanState :=
  processDir commonFiltersM "root" tree8
    { includeFiles := [], ignorePaths := [], trace := [] }

/-- Engine state whose tracked file f already holds content X in both the
files map and the cache. -/
def w10State : EngineState :=
  { watched := ["root"], handles := ["root/f"], previousHandles := ["root/f"],
    filesMap := [("root/f", "X")], cache := [("root/f", "X", 0)] }

/-! Claim theorems. -/

/-- C1: on the first scan of a root containing x with content 1 and y with
content 2, `onFilesAdded` fires once and the previous map is empty, but
the added map sends each added path to `undefined` rather than to the
current content, because the values are read from the files-map ref
before it is replaced by the new contents (src/index.ts line 437 versus
line 471).  The claim that the added map carries each file's current
content is refuted by this evaluation. -/
theorem firstScan_added_values_stale :
    firstScan.addedEvent = some ([("root/x", none), ("root/y", none)], []) ∧
    firstScan.addedEvent
      ≠ some ([("root/x", some "1"), ("root/y", some "2")], []) := by
  decide

/-- C2 counterexample: on the first scan, path x appears both in the added
delta and in the changed delta of the same cycle, refuting the claimed
disjointness of added and changed. -/
theorem firstScan_added_changed_overlap :
    "root/x" ∈ firstScan.addedFiles ∧
    "root/x" ∈ firstScan.changedFiles.map Prod.fst := by
  decide

/-- C2 (amended): for every scan cycle, the added and deleted delta sets
are disjoint (an added path was seen this cycle, while a deleted path is
exactly one not seen this cycle); added and changed, however, are not
disjoint in general, since a newly added path whose resolved content
differs from the prior files-map entry is also recorded as changed. -/
theorem processFiles_added_deleted_disjoint (st : EngineState)
    (read : String → Option String) (now ttl : Nat) (p : String)
    (ha : p ∈ (processFiles st read now ttl).addedFiles) :
    p ∉ (processFiles st read now ttl).deletedFiles := by
  rw [processFiles_addedFiles] at ha
  rw [processFiles_deletedFiles]
  intro hd
  unfold addedFilesOf at ha
  unfold deletedFilesOf at hd
  have h1 : p ∈ (loopOf st read now ttl).seen := (List.mem_filter.mp ha).1
  have h2 := (List.mem_filter.mp hd).2
  have h3 : memL (loopOf st read now ttl).seen p = true := (memL_iff _ _).mpr h1
  simp [h3] at h2

/-- Witness for the C2 theorem at the first-scan scenario. -/
theorem processFiles_added_deleted_disjoint_witness :
    "root/x" ∈ (processFiles firstScanState firstScanRead 0 5000).addedFiles ∧
    "root/x" ∉ (processFiles firstScanState firstScanRead 0 5000).deletedFiles :=
  ⟨by decide,
    processFiles_added_deleted_disjoint firstScanState firstScanRead 0 5000
      "root/x" (by decide)⟩

/-- C3: when the read of tracked file x fails, the path is dropped from
handles and cache and the batch continues, but it is NOT reported in that
cycle's deleted set and no deleted event fires: the path was added to
`seenFiles` before the failing read, so the `!seenFiles.has` filter
removes it from the deleted list (src/index.ts lines 383, 408, 425-428),
leaving the union with `deletedFilesSet` without effect.  The path even
stays recorded in the seen set committed to `previousHandlesRef`. -/
theorem readFailure_not_deleted_same_cycle :
    c3Cycle.state.handles = [] ∧
    lookupC c3Cycle.state.cache "root/x" = none ∧
    c3Cycle.deletedFiles = [] ∧
    c3Cycle.deletedEvent = none ∧
    c3Cycle.state.previousHandles = ["root/x"] := by
  decide

/-- C4 counterexample: immediately after a successful writeFile of X, the
raw files map holds X, but the externally observable snapshot is the
debounced `files` value returned by the hook, and at the very time of the
write it still holds the old content, not X. -/
theorem writeFile_observable_not_immediate :
    lookupS c4Write.state.filesMap "root/f" = some "X" ∧
    debouncedAt wState.filesMap 50 [(1000, c4Write.state.filesMap)] 1000
      = [("root/f", "old")] ∧
    lookupS (debouncedAt wState.filesMap 50 [(1000, c4Write.state.filesMap)] 1000)
      "root/f" ≠ some "X" := by
  decide

/-- C4 (amended): a successful writeFile updates the committed raw
snapshot (the files-map ref) synchronously with the written content, but
the externally observable snapshot is the debounced view: at the time of
the update it still shows the previous value, and it shows the new value
once the debounce interval elapses with no further update. -/
theorem writeFile_raw_sync_observable_debounced
    (st : EngineState) (path data : String) (create tr : Bool) (now : Nat)
    (old neu : Smap) (delay t : Nat)
    (hp : path ≠ "") (hh : memL st.handles path = true) (hd : 0 < delay) :
    lookupS (writeFile st path data create tr true now).state.filesMap path
      = some data ∧
    debouncedAt old delay [(t, neu)] t = old ∧
    debouncedAt old delay [(t, neu)] (t + delay) = neu := by
  refine ⟨?_, ?_, ?_⟩
  · unfold writeFile
    simp [hp, hh, lookupS_setS_self]
  · unfold debouncedAt
    have h1 : ¬ (t + delay ≤ t) := by omega
    simp [h1]
  · unfold debouncedAt
    simp

/-- Witness for the C4 amended theorem at the concrete write scenario. -/
theorem writeFile_raw_sync_observable_debounced_witness :
    ("root/f" : String) ≠ "" ∧ memL wState.handles "root/f" = true ∧ 0 < 50 ∧
    (lookupS (writeFile wState "root/f" "X" true false true 1000).state.filesMap
        "root/f" = some "X" ∧
      debouncedAt wState.filesMap 50 [(1000, c4Write.state.filesMap)] 1000
        = wState.filesMap ∧
      debouncedAt wState.filesMap 50 [(1000, c4Write.state.filesMap)] (1000 + 50)
        = c4Write.state.filesMap) :=
  ⟨by decide, by decide, by decide,
    writeFile_raw_sync_observable_debounced wState "root/f" "X" true false 1000
      wState.filesMap c4Write.state.filesMap 50 1000
      (by decide) (by decide) (by decide)⟩

/-- C5: when the write transaction fails, writeFile aborts the writable,
propagates the error, and leaves the content cache and the snapshot
untouched; no changed notification and no snapshot publication fire. -/
theorem writeFile_failure_preserves
    (st : EngineState) (path data : String) (create tr : Bool) (now : Nat)
    (hp : path ≠ "") (hh : memL st.handles path = true) :
    (writeFile st path data create tr false now).error = some "write failed" ∧
    (writeFile st path data create tr false now).aborted = true ∧
    (writeFile st path data create tr false now).state.cache = st.cache ∧
    (writeFile st path data create tr false now).state.filesMap = st.filesMap ∧
    (writeFile st path data create tr false now).changedEvent = none ∧
    (writeFile st path data create tr false now).filesEvent = none := by
  unfold writeFile
  simp [hp, hh]

/-- Witness for the C5 theorem at the concrete write scenario. -/
theorem writeFile_failure_preserves_witness :
    ("root/f" : String) ≠ "" ∧ memL wState.handles "root/f" = true ∧
    ((writeFile wState "root/f" "X" true false false 1000).error
        = some "write failed" ∧
      (writeFile wState "root/f" "X" true false false 1000).aborted = true ∧
      (writeFile wState "root/f" "X" true false false 1000).state.cache
        = wState.cache ∧
      (writeFile wState "root/f" "X" true false false 1000).state.filesMap
        = wState.filesMap ∧
      (writeFile wState "root/f" "X" true false false 1000).changedEvent = none ∧
      (writeFile wState "root/f" "X" true false false 1000).filesEvent = none) :=
  ⟨by decide, by decide,
    writeFile_failure_preserves wState "root/f" "X" true false 1000
      (by decide) (by decide)⟩

/-- C6: in the cycle where x changes from 1 to 3 and y (content 2) is
removed, the deleted map correctly carries y with content 2, but the
previous map passed to the callbacks sends y to `undefined`, not to 2:
the deletion loop prunes deleted paths from the old files map before the
previous map is built from it (src/index.ts lines 445, 448-453).  The
claim that the previous map reconstructs prior content for every
previously known path is refuted by this evaluation. -/
theorem deleted_previous_map_missing_deleted_content :
    c6Cycle.deletedEvent
      = some ([("root/y", some "2")], [("root/x", some "1"), ("root/y", none)]) ∧
    c6Cycle.changedEvent
      = some ([("root/x", "3")], [("root/x", some "1"), ("root/y", none)]) ∧
    c6Cycle.state.filesMap = [("root/x", "3")] := by
  decide

/-- C7: running a second cycle over an unchanged tree (same handle paths,
same contents, within the cache TTL of the first cycle) yields empty
added, changed and deleted deltas, fires no callback, performs no
snapshot publication, and leaves the files map unchanged. -/
theorem processFiles_second_cycle_empty
    (watched prev0 H : List String) (fm0 : Smap)
    (read : String → Option String) (c : String → String)
    (now1 now2 ttl : Nat)
    (hnd : H.Nodup)
    (hread : ∀ p ∈ H, read p = some (c p))
    (httl : now2 - now1 < ttl) :
    (processFiles (processFiles ⟨watched, H, prev0, fm0, []⟩ read now1 ttl).state
        read now2 ttl).addedFiles = [] ∧
    (processFiles (processFiles ⟨watched, H, prev0, fm0, []⟩ read now1 ttl).state
        read now2 ttl).changedFiles = [] ∧
    (processFiles (processFiles ⟨watched, H, prev0, fm0, []⟩ read now1 ttl).state
        read now2 ttl).deletedFiles = [] ∧
    (processFiles (processFiles ⟨watched, H, prev0, fm0, []⟩ read now1 ttl).state
        read now2 ttl).addedEvent = none ∧
    (processFiles (processFiles ⟨watched, H, prev0, fm0, []⟩ read now1 ttl).state
        read now2 ttl).changedEvent = none ∧
    (processFiles (processFiles ⟨watched, H, prev0, fm0, []⟩ read now1 ttl).state
        read now2 ttl).deletedEvent = none ∧
    (processFiles (processFiles ⟨watched, H, prev0, fm0, []⟩ read now1 ttl).state
        read now2 ttl).rerender = false ∧
    (processFiles (processFiles ⟨watched, H, prev0, fm0, []⟩ read now1 ttl).state
        read now2 ttl).state.filesMap
      = (processFiles ⟨watched, H, prev0, fm0, []⟩ read now1 ttl).state.filesMap := by
  have hca0 : ∀ p ∈ H,
      lookupC (loopAcc0 ⟨watched, H, prev0, fm0, []⟩).cache p = none :=
    fun p _ => rfl
  obtain ⟨h1seen, h1nfm, h1cache, h1del, h1hand⟩ :=
    loop_fresh read now1 ttl fm0 c H (loopAcc0 ⟨watched, H, prev0, fm0, []⟩)
      hnd hca0 hread
  have hL1 : loopOf ⟨watched, H, prev0, fm0, []⟩ read now1 ttl
      = H.foldl (stepPath fm0 read now1 ttl)
          (loopAcc0 ⟨watched, H, prev0, fm0, []⟩) := rfl
  have h1seen' : (loopOf ⟨watched, H, prev0, fm0, []⟩ read now1 ttl).seen
      = H.foldl insL [] := by rw [hL1]; exact h1seen
  have h1nfm' : (loopOf ⟨watched, H, prev0, fm0, []⟩ read now1 ttl).newFilesMap
      = H.foldl (fun m p => setS m p (c p)) [] := by rw [hL1]; exact h1nfm
  have h1cache' : (loopOf ⟨watched, H, prev0, fm0, []⟩ read now1 ttl).cache
      = H.foldl (fun ca p => setC ca p (c p) now1) [] := by rw [hL1]; exact h1cache
  have h1hand' : (loopOf ⟨watched, H, prev0, fm0, []⟩ read now1 ttl).handles
      = H := by rw [hL1]; exact h1hand
  have hfm1 : (processFiles ⟨watched, H, prev0, fm0, []⟩ read now1 ttl).state.filesMap
      = H.foldl (fun m p => setS m p (c p)) [] := by
    rw [processFiles_state_filesMap, h1nfm']
  have hprev1 :
      (processFiles ⟨watched, H, prev0, fm0, []⟩ read now1 ttl).state.previousHandles
      = H.foldl insL [] := by
    rw [processFiles_state_previousHandles, h1seen']
  have hts : ∀ e ∈ H.foldl (fun ca p => setC ca p (c p) now1) [], e.2.2 = now1 :=
    ts_foldl_setC H c now1 [] (fun e he => absurd he (List.not_mem_nil e))
  have hcache1 : (processFiles ⟨watched, H, prev0, fm0, []⟩ read now1 ttl).state.cache
      = H.foldl (fun ca p => setC ca p (c p) now1) [] := by
    rw [processFiles_state_cache]
    unfold purgedCacheOf
    rw [h1cache']
    apply List.filter_eq_self.mpr
    intro e he
    rw [hts e he]
    simp
  have hsub : ∀ p ∈ H, p ∈ H.foldl insL [] := by
    intro p hp
    exact (mem_foldl_insL H [] p).mpr (Or.inr hp)
  have hdelnot : ∀ q ∈ deletedFilesOf ⟨watched, H, prev0, fm0, []⟩ read now1 ttl,
      q ∉ H := by
    intro q hq hqH
    unfold deletedFilesOf at hq
    have h2 := (List.mem_filter.mp hq).2
    rw [h1seen'] at h2
    have h3 : memL (H.foldl insL []) q = true :=
      (memL_iff _ _).mpr (hsub q hqH)
    simp [h3] at h2
  have hhand1 : (processFiles ⟨watched, H, prev0, fm0, []⟩ read now1 ttl).state.handles
      = H := by
    rw [processFiles_state_handles]
    unfold delFoldOf
    rw [h1hand']
    exact delFold_handles_const _ _ _ _ hdelnot
  have hca2 : ∀ p ∈ H,
      cacheValid (loopAcc0
          (processFiles ⟨watched, H, prev0, fm0, []⟩ read now1 ttl).state).cache
        now2 ttl p = some (c p) := by
    intro p hp
    have hc : (loopAcc0
        (processFiles ⟨watched, H, prev0, fm0, []⟩ read now1 ttl).state).cache
        = H.foldl (fun ca p => setC ca p (c p) now1) [] := hcache1
    rw [hc]
    unfold cacheValid
    rw [lookupC_foldl_mem H c now1 [] p hnd hp]
    simp [httl]
  have hpm2 : ∀ p ∈ H,
      lookupS (processFiles ⟨watched, H, prev0, fm0, []⟩ read now1 ttl).state.filesMap p
        = some (c p) := by
    intro p hp
    rw [hfm1]
    exact lookupS_foldl_mem H c [] p hnd hp
  obtain ⟨h2seen, h2nfm, h2cache, h2chg, h2del, h2hand, h2rr⟩ :=
    loop_hit read now2 ttl
      (processFiles ⟨watched, H, prev0, fm0, []⟩ read now1 ttl).state.filesMap c H
      (loopAcc0 (processFiles ⟨watched, H, prev0, fm0, []⟩ read now1 ttl).state)
      hca2 hpm2
  have hL2 : loopOf (processFiles ⟨watched, H, prev0, fm0, []⟩ read now1 ttl).state
      read now2 ttl
      = H.foldl (stepPath
          (processFiles ⟨watched, H, prev0, fm0, []⟩ read now1 ttl).state.filesMap
          read now2 ttl)
        (loopAcc0 (processFiles ⟨watched, H, prev0, fm0, []⟩ read now1 ttl).state) := by
    unfold loopOf
    rw [hhand1]
  have h2seen' :
      (loopOf (processFiles ⟨watched, H, prev0, fm0, []⟩ read now1 ttl).state
        read now2 ttl).seen = H.foldl insL [] := by
    rw [hL2]; exact h2seen
  have h2nfm' :
      (loopOf (processFiles ⟨watched, H, prev0, fm0, []⟩ read now1 ttl).state
        read now2 ttl).newFilesMap
      = (processFiles ⟨watched, H, prev0, fm0, []⟩ read now1 ttl).state.filesMap := by
    rw [hL2, h2nfm, hfm1]
    rfl
  have h2chg' :
      (loopOf (processFiles ⟨watched, H, prev0, fm0, []⟩ read now1 ttl).state
        read now2 ttl).changed = [] := by
    rw [hL2]; exact h2chg
  have h2del' :
      (loopOf (processFiles ⟨watched, H, prev0, fm0, []⟩ read now1 ttl).state
        read now2 ttl).deletedSet = [] := by
    rw [hL2]; exact h2del
  have h2rr' :
      (loopOf (processFiles ⟨watched, H, prev0, fm0, []⟩ read now1 ttl).state
        read now2 ttl).rerender = false := by
    rw [hL2]; exact h2rr
  have hadd2 : addedFilesOf
      (processFiles ⟨watched, H, prev0, fm0, []⟩ read now1 ttl).state
      read now2 ttl = [] := by
    unfold addedFilesOf
    rw [h2seen', hprev1]
    exact filter_not_memL_super _ _ (fun p hp => hp)
  have hdel2 : deletedFilesOf
      (processFiles ⟨watched, H, prev0, fm0, []⟩ read now1 ttl).state
      read now2 ttl = [] := by
    unfold deletedFilesOf
    rw [h2seen', h2del', hprev1, List.append_nil]
    exact filter_not_memL_super _ _ (fun p hp => hp)
  refine ⟨?_, ?_, ?_, ?_, ?_, ?_, ?_, ?_⟩
  · rw [processFiles_addedFiles]; exact hadd2
  · rw [processFiles_changedFiles]; exact h2chg'
  · rw [processFiles_deletedFiles]; exact hdel2
  · rw [processFiles_addedEvent, hadd2]; rfl
  · rw [processFiles_changedEvent, h2chg']; rfl
  · rw [processFiles_deletedEvent, hdel2]; rfl
  · rw [processFiles_rerender, h2rr', h2chg', hdel2, hadd2]; rfl
  · rw [processFiles_state_filesMap, h2nfm']

/-- Witness for the C7 theorem: two cycles over the unchanged two-file
tree, the second 100 milliseconds after the first. -/
theorem processFiles_second_cycle_empty_witness :
    (["root/x", "root/y"] : List String).Nodup ∧
    (∀ p ∈ (["root/x", "root/y"] : List String),
      firstScanRead p = some (if p = "root/x" then "1" else "2")) ∧
    100 - 0 < 5000 ∧
    (processFiles (processFiles ⟨["root"], ["root/x", "root/y"], [], [], []⟩
        firstScanRead 0 5000).state firstScanRead 100 5000).addedFiles = [] :=
  ⟨by decide, by decide, by decide,
    (processFiles_second_cycle_empty ["root"] [] ["root/x", "root/y"] []
      firstScanRead (fun p => if p = "root/x" then "1" else "2") 0 100 5000
      (by decide) (by decide) (by decide)).1⟩

/-- Evaluation of the scenario scan: the scanner is defined by
well-founded recursion, so its value on the concrete tree is established
once by unfolding and reused by the claim theorems. -/
theorem scan8_val :
    scan8 = { includeFiles := [("root/a.txt", "A")],
              ignorePaths := ["root/dist/b.txt", "root/dist/sub"],
              trace := [("root", true), ("root", true), ("root", true),
                ("root/a.txt", false), ("root/a.txt", false), ("root/a.txt", false),
                ("root/dist", true), ("root/dist", true), ("root/dist", true),
                ("root/dist/b.txt", false), ("root/dist/sub", true)] } := by
  simp only [scan8, tree8, processDir, dirPass, filePass, runDirFilters,
    runFileFilters, commonFiltersM, distFilter, miscFilter, gitFilterInit,
    List.foldl_cons, List.foldl_nil]
  decide

/-- C8 counterexample: with the default filters, scanning a root holding
a.txt and dist/b.txt evaluates a file predicate at root/dist/b.txt, a
path under the dist directory, refuting the claim that no predicate is
ever evaluated for paths under the excluded dist subtree: the fragment
blacklist matches only paths containing "/dist/", which the directory
path root/dist itself does not. -/
theorem scan_predicate_evaluated_under_dist :
    ("root/dist/b.txt", false) ∈ scan8.trace := by
  rw [scan8_val]
  decide

/-- C8 (amended): the scan's handle map contains a.txt and excludes
dist/b.txt, but the dist directory itself is not pruned: the scanner
enters it and evaluates file predicates on its direct children,
excluding each one; only deeper subdirectories such as dist/sub (whose
paths contain "/dist/") are pruned, and no predicate is evaluated for
anything below them. -/
theorem scan_dist_exclusion_amended :
    scan8.includeFiles = [("root/a.txt", "A")] ∧
    lookupS scan8.includeFiles "root/dist/b.txt" = none ∧
    ("root/dist/b.txt", false) ∈ scan8.trace ∧
    "root/dist/sub" ∈ scan8.ignorePaths ∧
    scan8.trace.all (fun e => !(strIncludes e.1 "/sub/")) = true := by
  rw [scan8_val]
  decide

/-- C9: a timer tick that fires while a cycle is still in flight (the
processing flag is set) is a no-op: the scheduler state is unchanged and
no new cycle starts, so with pollInterval 100 and a 250 millisecond
cycle the ticks at 100 and 200 milliseconds start nothing. -/
theorem tick_during_cycle_noop (s : SchedState) (h : s.processing = true) :
    schedRun s [SchedEvent.tick, SchedEvent.tick] = s := by
  simp [schedRun, schedStep, h]

/-- Witness for the C9 theorem at a concrete in-flight scheduler state. -/
theorem tick_during_cycle_noop_witness :
    (SchedState.mk true 3).processing = true ∧
    schedRun (SchedState.mk true 3) [SchedEvent.tick, SchedEvent.tick]
      = SchedState.mk true 3 :=
  ⟨rfl, tick_during_cycle_noop (SchedState.mk true 3) rfl⟩

/-- C10: every successful writeFile fires the changed notification with
the single-entry delta mapping the path to the written content,
unconditionally; no comparison against the cached or committed content is
performed, so the event also fires when the written content is identical
to what the cache and snapshot already hold. -/
theorem writeFile_changed_fires_unconditionally
    (st : EngineState) (path data : String) (create tr : Bool) (now : Nat)
    (hp : path ≠ "") (hh : memL st.handles path = true) :
    (writeFile st path data create tr true now).changedEvent
      = some ([(path, data)], previousFilesOf st) := by
  unfold writeFile
  simp [hp, hh]

/-- Witness for the C10 theorem: a write of content X to a file whose
cache and snapshot already hold the identical content X. -/
theorem writeFile_changed_fires_unconditionally_witness :
    ("root/f" : String) ≠ "" ∧ memL w10State.handles "root/f" = true ∧
    lookupC w10State.cache "root/f" = some ("X", 0) ∧
    lookupS w10State.filesMap "root/f" = some "X" ∧
    (writeFile w10State "root/f" "X" true false true 1000).changedEvent
      = some ([("root/f", "X")], previousFilesOf w10State) :=
  ⟨by decide, by decide, by decide, by decide,
    writeFile_changed_fires_unconditionally w10State "root/f" "X" true false 1000
      (by decide) (by decide)⟩

end UseFs
